import Mathlib

/-!
Shallow embedding of the session-resolution and alert-scheduling core of
`src/bot.py` (TUTORBOT).  Python `datetime.time` values are modelled as
`Dtime` (hour/minute pairs), calendar dates as rata-die day numbers
(`Nat`), absolute timestamps as `Int` seconds, and Python dicts as
association lists with replace-in-place update mirroring dict key
semantics.
-/

/-- Python `datetime.time` restricted to the hour/minute fields the bot
uses (`dtime(hh, mm)`); comparison is field-lexicographic, as for
`datetime.time`. -/
structure Dtime where
  hour : Nat
  minute : Nat
deriving DecidableEq, Repr

/-- The order `datetime.time` values are compared and sorted by
(lexicographic on hour then minute). -/
def timeLe (a b : Dtime) : Prop :=
  a.hour < b.hour ∨ (a.hour = b.hour ∧ a.minute ≤ b.minute)

instance : DecidableRel timeLe := fun a b => by
  unfold timeLe; infer_instance

instance : IsTotal Dtime timeLe :=
  ⟨fun a b => by
    unfold timeLe
    rcases Nat.lt_trichotomy a.hour b.hour with h | h | h
    · exact Or.inl (Or.inl h)
    · rcases Nat.le_total a.minute b.minute with hm | hm
      · exact Or.inl (Or.inr ⟨h, hm⟩)
      · exact Or.inr (Or.inr ⟨h.symm, hm⟩)
    · exact Or.inr (Or.inl h)⟩

instance : IsTrans Dtime timeLe :=
  ⟨fun a b c hab hbc => by
    unfold timeLe at *
    rcases hab with h1 | ⟨e1, m1⟩
    · rcases hbc with h2 | ⟨e2, _⟩
      · exact Or.inl (h1.trans h2)
      · exact Or.inl (e2 ▸ h1)
    · rcases hbc with h2 | ⟨e2, m2⟩
      · exact Or.inl (e1 ▸ h2)
      · exact Or.inr ⟨e1.trans e2, m1.trans m2⟩⟩

/-- Python `sorted` on a list of `datetime.time` values.  `timeLe` is a
total order with antisymmetry, so any sort agrees with Python's stable
sort. -/
def sortTimes (l : List Dtime) : List Dtime :=
  List.insertionSort timeLe l

/-- Python `sorted(set(times))`: the distinct values, ascending. -/
def dedupSortTimes (l : List Dtime) : List Dtime :=
  sortTimes l.dedup

/-- Characters stripped by Python `str.strip()` / matched by `\s`
(ASCII whitespace; the bot only ever meets these). -/
def isPyWs (c : Char) : Bool :=
  c = ' ' || c = '\t' || c = '\n' || c = '\r' || c = '\x0b' || c = '\x0c'

/-- Python `str.strip()`. -/
def pyStrip (s : String) : String :=
  ⟨((s.data.dropWhile isPyWs).reverse.dropWhile isPyWs).reverse⟩

def isDigitCh (c : Char) : Bool :=
  '0' ≤ c && c ≤ '9'

def digitsToNat (cs : List Char) : Nat :=
  cs.foldl (fun acc c => acc * 10 + (c.toNat - '0'.toNat)) 0

/-- `parse_time_str` from `src/bot.py`: match the pattern
`^\s*(\d{1,2})\s*[:시]\s*(\d{0,2})\s*(분)?\s*$` on the stripped string,
then range-check `0 <= hh <= 23`, `0 <= mm <= 59`.  Digit-run lengths
beyond the bounded groups can never be completed by the remaining
pattern, so the greedy reading below is exact. -/
def parse_time_str (s : String) : Option Dtime :=
  let cs := ((pyStrip s).data).dropWhile isPyWs
  let ds := cs.takeWhile isDigitCh
  let cs := cs.dropWhile isDigitCh
  if ds.length < 1 || 2 < ds.length then none
  else
    let hh := digitsToNat ds
    match cs.dropWhile isPyWs with
    | [] => none
    | c :: cs =>
      if c = ':' || c = '시' then
        let cs := cs.dropWhile isPyWs
        let ms := cs.takeWhile isDigitCh
        let cs := cs.dropWhile isDigitCh
        if 2 < ms.length then none
        else
          let mm := digitsToNat ms
          let cs := cs.dropWhile isPyWs
          let cs := match cs with
            | '분' :: rest => rest
            | rest => rest
          let cs := cs.dropWhile isPyWs
          if cs = [] then
            if hh ≤ 23 && mm ≤ 59 then some ⟨hh, mm⟩ else none
          else none
      else none

/-- Gregorian leap year. -/
def isLeapYear (y : Nat) : Bool :=
  (y % 4 = 0 && y % 100 ≠ 0) || y % 400 = 0

def daysInMonth (y m : Nat) : Nat :=
  if m = 2 then (if isLeapYear y then 29 else 28)
  else if m = 4 || m = 6 || m = 9 || m = 11 then 30
  else 31

/-- Day number of a proleptic-Gregorian civil date (years `1..9999`, the
range `datetime` admits); strictly monotone in the date, so date
comparison and `timedelta(days = n)` become `Nat` comparison and
addition. -/
def toRataDie (y m d : Nat) : Nat :=
  let y' := if m ≤ 2 then y - 1 else y
  let era := y' / 400
  let yoe := y' % 400
  let mp := if 2 < m then m - 3 else m + 9
  let doy := (153 * mp + 2) / 5 + (d - 1)
  let doe := yoe * 365 + yoe / 4 - yoe / 100 + doy
  era * 146097 + doe

/-- `date.weekday()` (Monday = 0 .. Sunday = 6) of a day number. -/
def weekdayOf (day : Nat) : Nat :=
  (day + 2) % 7

/-- `parse_date_yyyy_mm_dd` from `src/bot.py`: strip, then
`datetime.fromisoformat(s).date()` on the `YYYY-MM-DD` form the function
is named for (the only form the repository produces), `None` on
failure.  Month/day range validation mirrors `datetime`. -/
def parse_date_yyyy_mm_dd (s : String) : Option Nat :=
  match (pyStrip s).data with
  | [y1, y2, y3, y4, '-', m1, m2, '-', d1, d2] =>
    if isDigitCh y1 && isDigitCh y2 && isDigitCh y3 && isDigitCh y4 &&
       isDigitCh m1 && isDigitCh m2 && isDigitCh d1 && isDigitCh d2 then
      let y := digitsToNat [y1, y2, y3, y4]
      let m := digitsToNat [m1, m2]
      let d := digitsToNat [d1, d2]
      if 1 ≤ y && 1 ≤ m && m ≤ 12 && 1 ≤ d && d ≤ daysInMonth y m then
        some (toRataDie y m d)
      else none
    else none
  | _ => none

/-- `WEEKDAY_MAP` from `src/bot.py`. -/
def WEEKDAY_MAP (s : String) : Option Nat :=
  if s = "월" then some 0
  else if s = "화" then some 1
  else if s = "수" then some 2
  else if s = "목" then some 3
  else if s = "금" then some 4
  else if s = "토" then some 5
  else if s = "일" then some 6
  else none

/-- `OverrideEntry`: the per-(date, subject) dict
`{"cancel": bool, "change": str|None, "changes": [{"from","to"}], "makeup": [str]}`
as created by `_ov_get_or_create` and the `ov_*` mutation API.  A
`changes` item is modelled as a `(from, to)` pair of optional strings
(`item.get("from")` / `item.get("to")` may be absent). -/
structure OvEntry where
  cancel : Bool
  change : Option String
  changes : List (Option String × Option String)
  makeup : List String
deriving DecidableEq, Repr

/-- The per-day override map `overrides[day_iso]`: a Python dict keyed
by `str(student_id)` or legacy student name, modelled as an association
list with dict key semantics (unique keys; update in place). -/
abbrev OvsDay := List (String × OvEntry)

/-- Python `d.get(k)`. -/
def dictGet (m : OvsDay) (k : String) : Option OvEntry :=
  (m.find? (fun p => p.1 == k)).map (·.2)

/-- Python `d[k] = v`: replace in place if the key exists, else append. -/
def dictSet (m : OvsDay) (k : String) (v : OvEntry) : OvsDay :=
  if m.any (fun p => p.1 == k) then
    m.map (fun p => if p.1 == k then (k, v) else p)
  else m ++ [(k, v)]

/-- Python `del d[k]` (with the `except` swallow on a missing key). -/
def dictDel (m : OvsDay) (k : String) : OvsDay :=
  m.filter (fun p => p.1 != k)

/-- `_ov_get` from `src/bot.py`: ID key first, then name key; an empty
or `None` name is falsy and skips the name lookup. -/
def _ov_get (ovsDay : OvsDay) (student_name : Option String)
    (student_id : Option Int) : Option OvEntry :=
  let byName : Option OvEntry :=
    match student_name with
    | some n => if n ≠ "" then dictGet ovsDay n else none
    | none => none
  match student_id with
  | some sid =>
    match dictGet ovsDay (toString sid) with
    | some got => some got
    | none => byName
  | none => byName

/-- `apply` of one item of `entry["changes"]` inside
`effective_sessions_for`: parse `from`/`to`; if both parse and `from`
is currently held, remove the first occurrence of `from` and append
`to` unless already present; otherwise the item is a no-op. -/
def apply_change_pair (times : List Dtime)
    (item : Option String × Option String) : List Dtime :=
  let t_from := item.1.bind parse_time_str
  let t_to := item.2.bind parse_time_str
  match t_from, t_to with
  | some f, some t =>
    if f ∈ times then
      let times := times.erase f
      if t ∈ times then times else times ++ [t]
    else times
  | _, _ => times

/-- One step of the `makeup` loop inside `effective_sessions_for`:
append the parsed time unless unparseable or already present. -/
def add_makeup_time (times : List Dtime) (a : String) : List Dtime :=
  match parse_time_str a with
  | some t => if t ∈ times then times else times ++ [t]
  | none => times

/-- The override block of `effective_sessions_for` (`src/bot.py`
lines 334-358), applied to the working time set of one template row:
the `changes` pass (then `sorted(set(..))`), then the single `change`
replacement, then `makeup` union, then `cancel`. -/
def apply_overrides (entry : OvEntry) (times0 : List Dtime) : List Dtime :=
  let times :=
    if entry.changes ≠ [] then
      dedupSortTimes (entry.changes.foldl apply_change_pair times0)
    else times0
  let times :=
    match entry.change with
    | some ch =>
      match parse_time_str ch with
      | some t => [t]
      | none => times
    | none => times
  let times := entry.makeup.foldl add_makeup_time times
  if entry.cancel then [] else times

/-- One parsed sheet row (`parse_schedule_single_sheet` output value):
`{"name", "id", "pairs", "start_raw", "end_raw"}`. -/
structure Info where
  name : Option String
  id : Option Int
  pairs : List (String × Dtime)
  start_raw : String
  end_raw : String
deriving DecidableEq, Repr

/-- The weekday-matching template slot times of a row:
`[t for (d, t) in pairs if WEEKDAY_MAP.get(d) == wd]`. -/
def weekday_times (day : Nat) (info : Info) : List Dtime :=
  (info.pairs.filter
    (fun p => WEEKDAY_MAP p.1 == some (weekdayOf day))).map (·.2)

/-- The service-period gate of `effective_sessions_for` (`src/bot.py`
lines 322-330): unparseable `start_raw` empties the working set;
otherwise the set survives only for
`start_date <= day <= (end_date or start_date + 28 days)`. -/
def service_window_times (day : Nat) (info : Info) : List Dtime :=
  let times := weekday_times day info
  match parse_date_yyyy_mm_dd (pyStrip info.start_raw) with
  | none => []
  | some start_date =>
    let end_date := (parse_date_yyyy_mm_dd (pyStrip info.end_raw)).getD
      (start_date + 28)
    if start_date ≤ day ∧ day ≤ end_date then times else []

/-- The full per-row pipeline of `effective_sessions_for`: weekday
slots, service window, then the override block when the row has a
non-`None` name and `_ov_get` finds an entry. -/
def row_times (day : Nat) (info : Info) (ovsDay : OvsDay) : List Dtime :=
  let times := service_window_times day info
  match (if info.name.isSome then _ov_get ovsDay info.name info.id else none) with
  | some entry => apply_overrides entry times
  | none => times

/-- An emitted effective session `(student_name, start_time, student_id)`. -/
abbrev Session := Option String × Dtime × Option Int

/-- `effective_sessions_for` from `src/bot.py` (lines 298-362): one
sorted block of sessions per template row, concatenated in row order.
The function receives the per-day override dict
`overrides.get(day.isoformat(), {})` directly as `ovsDay`. -/
def effective_sessions_for (day : Nat) (base : List Info)
    (ovsDay : OvsDay) : List Session :=
  match base with
  | [] => []
  | info :: rest =>
    (sortTimes (row_times day info ovsDay)).map (fun t => (info.name, t, info.id))
      ++ effective_sessions_for day rest ovsDay

/-- `_migrate_legacy_key_if_any` from `src/bot.py`: when both a usable
id and a truthy name are given and a name-keyed entry exists, re-key it
under `str(student_id)` and delete the name key. -/
def _migrate_legacy_key_if_any (ovsDay : OvsDay) (student_name : Option String)
    (student_id : Option Int) : OvsDay :=
  match student_id, student_name with
  | some sid, some n =>
    if n ≠ "" then
      match dictGet ovsDay n with
      | some legacy => dictDel (dictSet ovsDay (toString sid) legacy) n
      | none => ovsDay
    else ovsDay
  | _, _ => ovsDay

/-- `_normalize_time_token` from `src/bot.py`. -/
def _normalize_time_token (tok : String) : Option Dtime :=
  parse_time_str (pyStrip tok)

/-- Python `"%02d"`-style field of `strftime("%H:%M")`. -/
def two_digits (n : Nat) : String :=
  if n < 10 then "0" ++ toString n else toString n

/-- `_format_time` from `src/bot.py`: `t.strftime("%H:%M")`. -/
def _format_time (t : Dtime) : String :=
  two_digits t.hour ++ ":" ++ two_digits t.minute

/-- `_ov_get_or_create` from `src/bot.py`, in explicit-state form.  It
returns the day map after creation/migration, the key the returned
entry dict is aliased under in that map (`none` when migration or a
name/id key collision left the returned dict unreferenced), and the
entry itself; the caller's field mutations are written back through
`ov_write_back`.  Raising `ValueError` when no identifier is usable
becomes the `error` branch. -/
def _ov_get_or_create (ovsDay : OvsDay) (student_name : Option String)
    (student_id : Option Int) :
    Except String (OvsDay × Option String × OvEntry) :=
  match _ov_get ovsDay student_name student_id with
  | some entry =>
    let st := _migrate_legacy_key_if_any ovsDay student_name student_id
    let key : Option String :=
      match student_id with
      | some sid =>
        if (dictGet ovsDay (toString sid)).isSome then
          match student_name with
          | some n =>
            if n ≠ "" ∧ (dictGet ovsDay n).isSome then none
            else some (toString sid)
          | none => some (toString sid)
        else some (toString sid)
      | none => student_name
    .ok (st, key, entry)
  | none =>
    let entry : OvEntry := ⟨false, none, [], []⟩
    match student_id with
    | some sid =>
      let st := dictSet ovsDay (toString sid) entry
      let st :=
        match student_name with
        | some n => if n ≠ "" ∧ (dictGet st n).isSome then dictDel st n else st
        | none => st
      let key := if (dictGet st (toString sid)).isSome then
        some (toString sid) else none
      .ok (st, key, entry)
    | none =>
      match student_name with
      | some n =>
        if n ≠ "" then .ok (dictSet ovsDay n entry, some n, entry)
        else .error "student_name 또는 student_id 중 하나는 필요합니다."
      | none => .error "student_name 또는 student_id 중 하나는 필요합니다."

/-- Write the mutated entry back at the key it is aliased under (the
functional image of Python's in-place dict mutation). -/
def ov_write_back (st : OvsDay) (key : Option String) (e : OvEntry) : OvsDay :=
  match key with
  | some k => dictSet st k e
  | none => st

/-- `ov_set_cancel` from `src/bot.py`. -/
def ov_set_cancel (ovsDay : OvsDay) (student_name : Option String)
    (student_id : Option Int) (flag : Bool) :
    Except String (OvsDay × OvEntry) :=
  match _ov_get_or_create ovsDay student_name student_id with
  | .error e => .error e
  | .ok (st, key, entry) =>
    let entry := { entry with cancel := flag }
    .ok (ov_write_back st key entry, entry)

/-- `ov_set_change_single` from `src/bot.py`: parse first (raise on an
invalid time, before any store access), then set `change`, clear
`changes`, clear `cancel`. -/
def ov_set_change_single (ovsDay : OvsDay) (student_name : Option String)
    (student_id : Option Int) (new_time : String) :
    Except String (OvsDay × OvEntry) :=
  match _normalize_time_token new_time with
  | none => .error "유효한 시간 형식이 아닙니다."
  | some t =>
    match _ov_get_or_create ovsDay student_name student_id with
    | .error e => .error e
    | .ok (st, key, entry) =>
      let entry := { entry with
        change := some (_format_time t), changes := [], cancel := false }
      .ok (ov_write_back st key entry, entry)

/-- `ov_add_change_pair` from `src/bot.py`: parse both times first
(raise before any store access), then clear `change`, append the
formatted pair to `changes` unless an equal pair is present, clear
`cancel`. -/
def ov_add_change_pair (ovsDay : OvsDay) (student_name : Option String)
    (student_id : Option Int) (src_time dst_time : String) :
    Except String (OvsDay × OvEntry) :=
  match _normalize_time_token src_time, _normalize_time_token dst_time with
  | some t_from, some t_to =>
    match _ov_get_or_create ovsDay student_name student_id with
    | .error e => .error e
    | .ok (st, key, entry) =>
      let entry := { entry with change := none }
      let pair : Option String × Option String :=
        (some (_format_time t_from), some (_format_time t_to))
      let changes :=
        if entry.changes.any (fun c => c == pair) then entry.changes
        else entry.changes ++ [pair]
      let entry := { entry with changes := changes, cancel := false }
      .ok (ov_write_back st key entry, entry)
  | _, _ => .error "변경 시간 형식이 올바르지 않습니다."

/-- `ov_add_makeup` from `src/bot.py`. -/
def ov_add_makeup (ovsDay : OvsDay) (student_name : Option String)
    (student_id : Option Int) (extra_time : String) :
    Except String (OvsDay × OvEntry) :=
  match _normalize_time_token extra_time with
  | none => .error "보강 시간 형식이 올바르지 않습니다."
  | some t =>
    match _ov_get_or_create ovsDay student_name student_id with
    | .error e => .error e
    | .ok (st, key, entry) =>
      let hhmm := _format_time t
      let makeup :=
        if entry.makeup.any (fun m => m == hhmm) then entry.makeup
        else entry.makeup ++ [hhmm]
      let entry := { entry with makeup := makeup }
      .ok (ov_write_back st key entry, entry)

/-- `ov_remove_makeup` from `src/bot.py`. -/
def ov_remove_makeup (ovsDay : OvsDay) (student_name : Option String)
    (student_id : Option Int) (extra_time : String) :
    Except String (OvsDay × OvEntry) :=
  match _normalize_time_token extra_time with
  | none => .error "보강 시간 형식이 올바르지 않습니다."
  | some t =>
    match _ov_get_or_create ovsDay student_name student_id with
    | .error e => .error e
    | .ok (st, key, entry) =>
      let hhmm := _format_time t
      let entry := { entry with
        makeup := entry.makeup.filter (fun m => m != hhmm) }
      .ok (ov_write_back st key entry, entry)

/-- A key of the `rel_tasks` registry:
`(sid | None, HHMM, day, offset)`.  The code keys by the day's ISO
string `day.isoformat()`; the day number is an injective encoding of
that string, so key equality coincides. -/
structure RelKey where
  sid : Option Int
  hhmm : Nat
  day : Nat
  off : Int
deriving DecidableEq, Repr

/-- Lifecycle of one `asyncio` alert task. -/
inductive TaskStatus where
  | running
  | done
  | cancelled
deriving DecidableEq, Repr

/-- One registered timer task: its fire time (seconds on an absolute
clock) and its lifecycle status. -/
structure RelTask where
  fireAt : Int
  status : TaskStatus
deriving DecidableEq, Repr

/-- The `rel_tasks` dict (`src/bot.py` line 132), modelled as an
association list with dict key semantics. -/
abbrev Registry := List (RelKey × RelTask)

/-- Python `rel_tasks.get(key)`. -/
def regGet (st : Registry) (k : RelKey) : Option RelTask :=
  (st.find? (fun p => p.1 == k)).map (·.2)

/-- Python `rel_tasks[key] = task`: replace in place or append. -/
def regSet (st : Registry) (k : RelKey) (v : RelTask) : Registry :=
  if st.any (fun p => p.1 == k) then
    st.map (fun p => if p.1 == k then (k, v) else p)
  else st ++ [(k, v)]

/-- Does a registry key match the day (and, when given, the offset)
selected by `_cancel_rel_tasks_for`? -/
def relKeyMatches (k : RelKey) (day : Nat) (off : Option Int) : Bool :=
  k.day == day &&
    (match off with
     | none => true
     | some o => k.off == o)

/-- `_cancel_rel_tasks_for` from `src/bot.py` (lines 981-998): cancel
every matching task and pop its key; registry-wise, every matching key
is removed (the `task.cancel()` side effect on the task object is the
cancellation signal modelled by `TaskStatus.cancelled`). -/
def _cancel_rel_tasks_for (st : Registry) (day : Nat) (off : Option Int) :
    Registry :=
  st.filter (fun p => !(relKeyMatches p.1 day off))

/-- The `(sid if isinstance(sid, int) else None, t.hour*100 + t.minute,
today, offset)` key built for a session. -/
def sessionKey (today : Nat) (off : Int) (s : Session) : RelKey :=
  ⟨s.2.2, s.2.1.hour * 100 + s.2.1.minute, today, off⟩

/-- `fire_at = datetime.combine(today, t) + timedelta(minutes=offset)`,
as seconds on the absolute clock. -/
def sessionFireAt (today : Nat) (off : Int) (s : Session) : Int :=
  ((today : Int) * 86400 + ((s.2.1.hour : Int) * 3600 + (s.2.1.minute : Int) * 60))
    + off * 60

/-- The per-session body of the scheduling loop in
`schedule_relative_alerts_for_today`: skip a fire time already past,
else cancel any task still registered under the key and register a
fresh running task. -/
def schedStep (today : Nat) (off : Int) (now : Int) (st : Registry)
    (s : Session) : Registry :=
  if sessionFireAt today off s - now ≤ 0 then st
  else regSet st (sessionKey today off s) ⟨sessionFireAt today off s, .running⟩

/-- `schedule_relative_alerts_for_today` from `src/bot.py`
(lines 1064-1093): the code computes `sessions` as
`effective_sessions_for(today)`; the registry transformation it
performs is: first `_cancel_rel_tasks_for(today_iso, offset_min)`, then
one `schedStep` per session in order. -/
def schedule_relative_alerts_for_today (st : Registry) (today : Nat)
    (sessions : List Session) (now : Int) (offset_min : Int) : Registry :=
  let st := _cancel_rel_tasks_for st today (some offset_min)
  sessions.foldl (schedStep today offset_min now) st

/-- What a run of `_fire_relative` (`src/bot.py` lines 1000-1062) does
to the `rel_tasks` registry: nothing — the body contains no operation
on `rel_tasks`, on any of its exits (delivered, suppressed as stale, or
cancelled during the sleep). -/
def _fire_relative_registry_after (st : Registry) : Registry :=
  st

/-- An observable delivery attempt of `_fire_relative`. -/
inductive RelEffect where
  | sendStudent (msg : String)
  | sendRoomFallback (msg : String)
  | sendRoomLog (msg : String)
deriving DecidableEq, Repr

/-- `f"<@{student_id}>" if isinstance(student_id, int) else student_name`. -/
def mention_of (student_name : String) (student_id : Option Int) : String :=
  match student_id with
  | some i => "<@" ++ toString i ++ ">"
  | none => student_name

/-- The delivery attempts performed by one run of `_fire_relative`
(`src/bot.py` lines 1000-1062).  `now_at_wake` is the clock value at
the staleness check after the sleep; `cancelled_during_sleep` is the
`asyncio.CancelledError` path; `has_student_channel`, `has_room` model
whether the external channel lookups return a destination, and `label`
is the `_get_label` result. -/
def _fire_relative_effects (student_name : String) (student_id : Option Int)
    (start_time : Dtime) (fire_at : Int) (offset_min : Int)
    (now_at_wake : Int) (cancelled_during_sleep : Bool)
    (has_student_channel : Bool) (has_room : Bool) (label : String) :
    List RelEffect :=
  if cancelled_during_sleep then []
  else if 120 < now_at_wake - fire_at then []
  else
    let mention := mention_of student_name student_id
    let start_label := _format_time start_time
    let msg_student :=
      if offset_min < 0 then
        mention ++ " 수업 " ++ toString (-offset_min) ++ "분 전입니다.\n" ++
          "- 시작 시각: " ++ start_label ++ "\n" ++
          "- 준비물: 태블릿/필기도구/문제지\n" ++
          "- 10분 내 디스코드 입장 부탁드립니다."
      else
        mention ++ " 수업이 " ++ toString offset_min ++ "분이 지났습니다. " ++
          "수업을 마칠 준비를 해주세요. (시작 " ++ start_label ++ ")"
    let log :=
      if offset_min < 0 then
        "[상황실] " ++ label ++ " 수업 " ++ toString (-offset_min) ++ "분 전 알림 전송"
      else
        "[상황실] " ++ label ++ " 수업 " ++ toString offset_min ++ "분 경과 알림 전송"
    let studentPart : List RelEffect :=
      if has_student_channel then [.sendStudent msg_student]
      else if has_room then
        [.sendRoomFallback ("[알림 실패] " ++ label ++ " 학생 채널을 찾지 못해 학생 알림 생략")]
      else []
    let roomPart : List RelEffect :=
      if has_room then [.sendRoomLog log] else []
    studentPart ++ roomPart

/-! ## Helper lemmas -/

theorem sortTimes_nil : sortTimes [] = [] := rfl

theorem perm_sortTimes (l : List Dtime) : List.Perm (sortTimes l) l :=
  List.perm_insertionSort timeLe l

theorem mem_sortTimes {t : Dtime} {l : List Dtime} :
    t ∈ sortTimes l ↔ t ∈ l :=
  (perm_sortTimes l).mem_iff

theorem sorted_sortTimes (l : List Dtime) :
    List.Sorted timeLe (sortTimes l) :=
  List.sorted_insertionSort timeLe l

theorem nodup_sortTimes {l : List Dtime} (h : l.Nodup) :
    (sortTimes l).Nodup :=
  (perm_sortTimes l).nodup_iff.mpr h

theorem nodup_dedupSortTimes (l : List Dtime) :
    (dedupSortTimes l).Nodup :=
  nodup_sortTimes l.nodup_dedup

theorem apply_overrides_of_cancel {entry : OvEntry} (hc : entry.cancel = true)
    (ts : List Dtime) : apply_overrides entry ts = [] := by
  unfold apply_overrides
  simp [hc]

theorem mem_effective_sessions_for {s : Session} {day : Nat}
    {base : List Info} {ovsDay : OvsDay} :
    s ∈ effective_sessions_for day base ovsDay ↔
      ∃ info ∈ base, ∃ t ∈ sortTimes (row_times day info ovsDay),
        s = (info.name, t, info.id) := by
  induction base with
  | nil => simp [effective_sessions_for]
  | cons info rest ih =>
    simp only [effective_sessions_for, List.mem_append, List.mem_map, ih,
      List.mem_cons]
    constructor
    · rintro (⟨t, ht, rfl⟩ | ⟨i, hi, t, ht, rfl⟩)
      · exact ⟨info, Or.inl rfl, t, ht, rfl⟩
      · exact ⟨i, Or.inr hi, t, ht, rfl⟩
    · rintro ⟨i, rfl | hi, t, ht, rfl⟩
      · exact Or.inl ⟨t, ht, rfl⟩
      · exact Or.inr ⟨i, hi, t, ht, rfl⟩

theorem row_times_of_entry {day : Nat} {info : Info} {ovsDay : OvsDay}
    {n : String} {entry : OvEntry} (hn : info.name = some n)
    (hget : _ov_get ovsDay info.name info.id = some entry) :
    row_times day info ovsDay = apply_overrides entry (service_window_times day info) := by
  unfold row_times
  rw [hn] at hget ⊢
  simp [hget]

theorem row_times_of_no_entry {day : Nat} {info : Info} {ovsDay : OvsDay}
    (hno : info.name = none ∨ _ov_get ovsDay info.name info.id = none) :
    row_times day info ovsDay = service_window_times day info := by
  unfold row_times
  rcases hno with hn | hg
  · simp [hn]
  · cases hn : info.name with
    | none => simp [hn]
    | some n => rw [hn] at hg; simp [hn, hg]

/-! ## C1: cancellation dominates -/

/-- C1.  For every date, template set and per-day override map, if the
override entry `_ov_get` resolves for a subject (name and id) has its
`cancel` flag set, then `effective_sessions_for` emits no session
carrying that subject's name and id on that date, whatever `changes`,
`change` or `makeup` the entry also holds: cancellation is applied last
in `apply_overrides` and clears the whole working set. -/
theorem cancellation_dominates (day : Nat) (base : List Info)
    (ovsDay : OvsDay) (n : String) (sid : Option Int) (entry : OvEntry)
    (hget : _ov_get ovsDay (some n) sid = some entry)
    (hc : entry.cancel = true) :
    ∀ t : Dtime, (some n, t, sid) ∉ effective_sessions_for day base ovsDay := by
  intro t hmem
  rw [mem_effective_sessions_for] at hmem
  obtain ⟨info, _, t', ht', heq⟩ := hmem
  simp only [Prod.mk.injEq] at heq
  obtain ⟨h1, _, h3⟩ := heq
  rw [row_times_of_entry h1.symm (by rw [h1.symm, h3.symm]; exact hget),
    apply_overrides_of_cancel hc, sortTimes_nil] at ht'
  exact absurd ht' (List.not_mem_nil _)

/-- Witness for C1: the spec scenario — slot Monday 17:00, window from
2025-01-01, a change pair and a makeup recorded and then `cancel`
set — resolves to nothing on 2025-01-06. -/
theorem cancellation_dominates_witness :
    (some "A", (⟨17, 0⟩ : Dtime), some (7 : Int)) ∉
      effective_sessions_for ((parse_date_yyyy_mm_dd "2025-01-06").getD 0)
        [⟨some "A", some 7, [("월", ⟨17, 0⟩)], "2025-01-01", ""⟩]
        [("7", ⟨true, none, [(some "17:00", some "20:30")], ["21:00"]⟩)] :=
  cancellation_dominates ((parse_date_yyyy_mm_dd "2025-01-06").getD 0)
    [⟨some "A", some 7, [("월", ⟨17, 0⟩)], "2025-01-01", ""⟩]
    [("7", ⟨true, none, [(some "17:00", some "20:30")], ["21:00"]⟩)]
    "A" (some 7) ⟨true, none, [(some "17:00", some "20:30")], ["21:00"]⟩
    (by decide) rfl ⟨17, 0⟩

/-! ## C6: staleness suppression -/

/-- C6.  A `_fire_relative` run that wakes (not cancelled during its
sleep) and finds the current time more than the 2-minute grace window
past its `fire_at` performs no delivery at all: no student message, no
fallback, no situation-room log. -/
theorem staleness_suppression (student_name : String) (student_id : Option Int)
    (start_time : Dtime) (fire_at : Int) (offset_min : Int)
    (now_at_wake : Int) (has_student_channel has_room : Bool) (label : String)
    (hstale : 120 < now_at_wake - fire_at) :
    _fire_relative_effects student_name student_id start_time fire_at
      offset_min now_at_wake false has_student_channel has_room label = [] := by
  unfold _fire_relative_effects
  simp [hstale]

/-- Witness for C6: an alert due at `fire_at = 0` waking 121 seconds
late delivers nothing, even with every destination available. -/
theorem staleness_suppression_witness :
    (120 : Int) < 121 - 0 ∧
      _fire_relative_effects "A" (some 7) ⟨17, 0⟩ 0 (-10) 121 false
        true true "A" = [] :=
  ⟨by decide,
    staleness_suppression "A" (some 7) ⟨17, 0⟩ 0 (-10) 121 true true "A"
      (by decide)⟩

/-! ## C7 / C9 / C10: override mutation API -/

/-- C7.  Mutual exclusion of the two change forms at the mutation API:
a successful `ov_add_change_pair` always returns an entry whose single
`change` is `None`, and a successful `ov_set_change_single` always
returns an entry whose `changes` list is empty — each form clears the
other, whichever order the two operations are called in. -/
theorem change_forms_mutually_exclusive :
    (∀ ovsDay sn si f t st e,
        ov_add_change_pair ovsDay sn si f t = .ok (st, e) → e.change = none) ∧
    (∀ ovsDay sn si s st e,
        ov_set_change_single ovsDay sn si s = .ok (st, e) → e.changes = []) := by
  constructor
  · intro ovsDay sn si f t st e h
    unfold ov_add_change_pair at h
    cases hf : _normalize_time_token f <;> rw [hf] at h
    · cases ht : _normalize_time_token t <;> rw [ht] at h <;> simp at h
    · cases ht : _normalize_time_token t <;> rw [ht] at h
      · simp at h
      · cases hg : _ov_get_or_create ovsDay sn si <;> rw [hg] at h
        · simp at h
        · rename_i p
          obtain ⟨st', key, entry⟩ := p
          simp only [Except.ok.injEq, Prod.mk.injEq] at h
          rw [← h.2]
  · intro ovsDay sn si s st e h
    unfold ov_set_change_single at h
    cases hs : _normalize_time_token s <;> rw [hs] at h
    · simp at h
    · cases hg : _ov_get_or_create ovsDay sn si <;> rw [hg] at h
      · simp at h
      · rename_i p
        obtain ⟨st', key, entry⟩ := p
        simp only [Except.ok.injEq, Prod.mk.injEq] at h
        rw [← h.2]

/-- Witness for C7: `setSingleChange` then `addChangePair` leaves
`change = None`; `addChangePair` then `setSingleChange` leaves
`changes = []`, for subject id 7. -/
theorem change_forms_mutually_exclusive_witness :
    (ov_add_change_pair [("7", ⟨false, some "20:30", [], []⟩)] (some "A")
        (some 7) "17:00" "18:00" =
      .ok ([("7", ⟨false, none, [(some "17:00", some "18:00")], []⟩)],
        ⟨false, none, [(some "17:00", some "18:00")], []⟩)) ∧
    (⟨false, none, [(some "17:00", some "18:00")], []⟩ : OvEntry).change = none ∧
    (ov_set_change_single [("7", ⟨false, none, [(some "17:00", some "18:00")], []⟩)]
        (some "A") (some 7) "20:30" =
      .ok ([("7", ⟨false, some "20:30", [], []⟩)], ⟨false, some "20:30", [], []⟩)) ∧
    (⟨false, some "20:30", [], []⟩ : OvEntry).changes = [] :=
  ⟨rfl,
   change_forms_mutually_exclusive.1 [("7", ⟨false, some "20:30", [], []⟩)]
     (some "A") (some 7) "17:00" "18:00"
     [("7", ⟨false, none, [(some "17:00", some "18:00")], []⟩)]
     ⟨false, none, [(some "17:00", some "18:00")], []⟩ rfl,
   rfl,
   change_forms_mutually_exclusive.2
     [("7", ⟨false, none, [(some "17:00", some "18:00")], []⟩)]
     (some "A") (some 7) "20:30"
     [("7", ⟨false, some "20:30", [], []⟩)] ⟨false, some "20:30", [], []⟩ rfl⟩

/-- C9.  Every override mutation that takes a time argument parses it
before touching the store; an unparseable time makes the operation
return the descriptive error and nothing else — the error branch carries
no store, so the caller's map is left exactly as it was and no entry is
created or modified for the subject and date. -/
theorem invalid_time_rejected (ovsDay : OvsDay) (sn : Option String)
    (si : Option Int) (s other : String)
    (h : _normalize_time_token s = none) :
    ov_set_change_single ovsDay sn si s = .error "유효한 시간 형식이 아닙니다." ∧
    ov_add_change_pair ovsDay sn si s other = .error "변경 시간 형식이 올바르지 않습니다." ∧
    ov_add_change_pair ovsDay sn si other s = .error "변경 시간 형식이 올바르지 않습니다." ∧
    ov_add_makeup ovsDay sn si s = .error "보강 시간 형식이 올바르지 않습니다." ∧
    ov_remove_makeup ovsDay sn si s = .error "보강 시간 형식이 올바르지 않습니다." := by
  refine ⟨?_, ?_, ?_, ?_, ?_⟩
  · unfold ov_set_change_single; rw [h]
  · unfold ov_add_change_pair
    cases ho : _normalize_time_token other <;> rw [h]
  · unfold ov_add_change_pair
    cases ho : _normalize_time_token other <;> rw [h]
  · unfold ov_add_makeup; rw [h]
  · unfold ov_remove_makeup; rw [h]

/-- Witness for C9: the token `"abc"` parses as no time and every
time-taking mutation rejects it with its descriptive error. -/
theorem invalid_time_rejected_witness :
    _normalize_time_token "abc" = none ∧
      ov_set_change_single [] (some "A") (some 7) "abc" =
        .error "유효한 시간 형식이 아닙니다." :=
  ⟨rfl, (invalid_time_rejected [] (some "A") (some 7) "abc" "17:00" rfl).1⟩

/-- C10.  A successful `ov_set_change_single` or `ov_add_change_pair`
always returns an entry with `cancel = False`: recording a time change
silently clears a previously-set cancellation for that date, so a
cancel followed by a change leaves the day not cancelled. -/
theorem change_clears_cancel :
    (∀ ovsDay sn si s st e,
        ov_set_change_single ovsDay sn si s = .ok (st, e) → e.cancel = false) ∧
    (∀ ovsDay sn si f t st e,
        ov_add_change_pair ovsDay sn si f t = .ok (st, e) → e.cancel = false) := by
  constructor
  · intro ovsDay sn si s st e h
    unfold ov_set_change_single at h
    cases hs : _normalize_time_token s <;> rw [hs] at h
    · simp at h
    · cases hg : _ov_get_or_create ovsDay sn si <;> rw [hg] at h
      · simp at h
      · rename_i p
        obtain ⟨st', key, entry⟩ := p
        simp only [Except.ok.injEq, Prod.mk.injEq] at h
        rw [← h.2]
  · intro ovsDay sn si f t st e h
    unfold ov_add_change_pair at h
    cases hf : _normalize_time_token f <;> rw [hf] at h
    · cases ht : _normalize_time_token t <;> rw [ht] at h <;> simp at h
    · cases ht : _normalize_time_token t <;> rw [ht] at h
      · simp at h
      · cases hg : _ov_get_or_create ovsDay sn si <;> rw [hg] at h
        · simp at h
        · rename_i p
          obtain ⟨st', key, entry⟩ := p
          simp only [Except.ok.injEq, Prod.mk.injEq] at h
          rw [← h.2]

/-- Witness for C10: cancelling subject 7 (`cancel = True` in the
store) and then recording a change pair returns an entry with
`cancel = False`. -/
theorem change_clears_cancel_witness :
    (ov_add_change_pair [("7", ⟨true, none, [], []⟩)] (some "A") (some 7)
        "17:00" "18:00" =
      .ok ([("7", ⟨false, none, [(some "17:00", some "18:00")], []⟩)],
        ⟨false, none, [(some "17:00", some "18:00")], []⟩)) ∧
    (⟨false, none, [(some "17:00", some "18:00")], []⟩ : OvEntry).cancel = false :=
  ⟨rfl,
   change_clears_cancel.2 [("7", ⟨true, none, [], []⟩)] (some "A") (some 7)
     "17:00" "18:00" [("7", ⟨false, none, [(some "17:00", some "18:00")], []⟩)]
     ⟨false, none, [(some "17:00", some "18:00")], []⟩ rfl⟩

/-! ## C3: service-window gate -/

theorem service_window_times_of_no_start {day : Nat} {info : Info}
    (hs : parse_date_yyyy_mm_dd (pyStrip info.start_raw) = none) :
    service_window_times day info = [] := by
  unfold service_window_times
  rw [hs]

theorem mem_foldl_add_makeup_of_mem {t : Dtime} {ts : List Dtime}
    (ms : List String) (hmem : t ∈ ts) :
    t ∈ ms.foldl add_makeup_time ts := by
  induction ms generalizing ts with
  | nil => exact hmem
  | cons a rest ih =>
    refine ih ?_
    unfold add_makeup_time
    cases parse_time_str a with
    | none => exact hmem
    | some t' =>
      by_cases h : t' ∈ ts
      · simpa [h]
      · simp only [h, if_false]
        exact List.mem_append_left _ hmem

theorem mem_foldl_add_makeup {m : String} {tm : Dtime} (ms : List String)
    (ts : List Dtime) (hm : m ∈ ms) (hp : parse_time_str m = some tm) :
    tm ∈ ms.foldl add_makeup_time ts := by
  induction ms generalizing ts with
  | nil => exact absurd hm (List.not_mem_nil m)
  | cons a rest ih =>
    rcases List.mem_cons.mp hm with rfl | hm'
    · refine mem_foldl_add_makeup_of_mem rest ?_
      unfold add_makeup_time
      rw [hp]
      by_cases h : tm ∈ ts
      · simp [h]
      · simp only [h, if_false]
        exact List.mem_append_right _ (List.mem_singleton.mpr rfl)
    · exact ih _ hm'

theorem mem_makeup_apply_overrides {entry : OvEntry} {m : String}
    {tm : Dtime} (ts : List Dtime) (hc : entry.cancel = false)
    (hm : m ∈ entry.makeup) (hp : parse_time_str m = some tm) :
    tm ∈ apply_overrides entry ts := by
  unfold apply_overrides
  simp only [hc, Bool.false_eq_true, if_false]
  exact mem_foldl_add_makeup entry.makeup _ hm hp


theorem effective_sessions_for_singleton (day : Nat) (info : Info)
    (ovsDay : OvsDay) :
    effective_sessions_for day [info] ovsDay =
      (sortTimes (row_times day info ovsDay)).map
        (fun t => (info.name, t, info.id)) := by
  simp [effective_sessions_for]

theorem apply_overrides_makeup_only {entry : OvEntry}
    (h1 : entry.changes = []) (h2 : entry.change = none)
    (h3 : entry.cancel = false) (ts : List Dtime) :
    apply_overrides entry ts = entry.makeup.foldl add_makeup_time ts := by
  unfold apply_overrides
  rw [h1, h2]
  simp [h3]

/-- C3.  The service-window gate of the resolver, on a one-row template
set.  (a) When `start_raw` does not parse, all weekly template slots
are discarded before overrides apply: with no override entry the day
resolves to nothing; with an entry — any entry — the result is exactly
the override block applied to the empty working set, so template-origin
slots never appear; for a makeup-only entry the result is exactly the
parsed makeup times (makeup still appears, template slots do not), and
every parseable makeup time of any non-cancelled entry appears.
(b) When `start_raw` parses to `start_date`, the template slots enter
the working set exactly when `start_date ≤ day ≤ end_date`, both bounds
inclusive, where `end_date` is the parsed `end_raw` when present and
`start_date + 28` days when absent — with no entry the result is the
sorted slots inside the window and empty outside it, and with an entry
the result is the override block applied to the gated set. -/
theorem service_window_gate (day : Nat) (info : Info) (ovsDay : OvsDay) :
    (parse_date_yyyy_mm_dd (pyStrip info.start_raw) = none →
      ((info.name = none ∨ _ov_get ovsDay info.name info.id = none) →
        effective_sessions_for day [info] ovsDay = []) ∧
      (∀ n entry, info.name = some n →
        _ov_get ovsDay info.name info.id = some entry →
        effective_sessions_for day [info] ovsDay =
          (sortTimes (apply_overrides entry [])).map
            (fun t => (some n, t, info.id))) ∧
      (∀ n entry, info.name = some n →
        _ov_get ovsDay info.name info.id = some entry →
        entry.changes = [] → entry.change = none → entry.cancel = false →
        effective_sessions_for day [info] ovsDay =
          (sortTimes (entry.makeup.foldl add_makeup_time [])).map
            (fun t => (some n, t, info.id))) ∧
      (∀ n entry, info.name = some n →
        _ov_get ovsDay info.name info.id = some entry →
        entry.cancel = false →
        ∀ m tm, m ∈ entry.makeup → parse_time_str m = some tm →
          (some n, tm, info.id) ∈ effective_sessions_for day [info] ovsDay)) ∧
    (∀ start_date,
      parse_date_yyyy_mm_dd (pyStrip info.start_raw) = some start_date →
      ((info.name = none ∨ _ov_get ovsDay info.name info.id = none) →
        effective_sessions_for day [info] ovsDay =
          (if start_date ≤ day ∧
              day ≤ (parse_date_yyyy_mm_dd (pyStrip info.end_raw)).getD
                (start_date + 28)
           then (sortTimes (weekday_times day info)).map
             (fun t => (info.name, t, info.id))
           else [])) ∧
      (∀ n entry, info.name = some n →
        _ov_get ovsDay info.name info.id = some entry →
        effective_sessions_for day [info] ovsDay =
          (sortTimes (apply_overrides entry
            (if start_date ≤ day ∧
                day ≤ (parse_date_yyyy_mm_dd (pyStrip info.end_raw)).getD
                  (start_date + 28)
             then weekday_times day info
             else []))).map (fun t => (some n, t, info.id)))) := by
  have hwin : ∀ start_date,
      parse_date_yyyy_mm_dd (pyStrip info.start_raw) = some start_date →
      service_window_times day info =
        (if start_date ≤ day ∧
            day ≤ (parse_date_yyyy_mm_dd (pyStrip info.end_raw)).getD
              (start_date + 28)
         then weekday_times day info
         else []) := by
    intro start_date hs
    unfold service_window_times
    rw [hs]
  refine ⟨fun hs => ⟨fun hno => ?_, fun n entry hn hget => ?_,
      fun n entry hn hget h1 h2 h3 => ?_,
      fun n entry hn hget hc m tm hm hp => ?_⟩,
    fun start_date hs => ⟨fun hno => ?_, fun n entry hn hget => ?_⟩⟩
  · rw [effective_sessions_for_singleton, row_times_of_no_entry hno,
      service_window_times_of_no_start hs, sortTimes_nil]
    rfl
  · rw [effective_sessions_for_singleton, row_times_of_entry hn hget,
      service_window_times_of_no_start hs, hn]
  · rw [effective_sessions_for_singleton, row_times_of_entry hn hget,
      service_window_times_of_no_start hs,
      apply_overrides_makeup_only h1 h2 h3, hn]
  · rw [mem_effective_sessions_for]
    refine ⟨info, List.mem_singleton.mpr rfl, tm, ?_, by rw [hn]⟩
    rw [row_times_of_entry hn hget, mem_sortTimes]
    exact mem_makeup_apply_overrides _ hc hm hp
  · rw [effective_sessions_for_singleton, row_times_of_no_entry hno,
      hwin start_date hs]
    by_cases hw : start_date ≤ day ∧
        day ≤ (parse_date_yyyy_mm_dd (pyStrip info.end_raw)).getD
          (start_date + 28)
    · simp [hw]
    · simp [hw, sortTimes_nil]
  · rw [effective_sessions_for_singleton, row_times_of_entry hn hget,
      hwin start_date hs, hn]

/-- Witness for C3: a subject with a Monday 17:00 slot and no
`serviceStart`, carrying a makeup-only override with a 21:00 makeup,
resolves on Monday 2025-01-06 to exactly the 21:00 session — the
template slot is gone, the makeup appears; with no override it resolves
to nothing; and the same subject with the one-day window
`2025-02-10 .. 2025-02-10` resolves to nothing on Tuesday 2025-02-11
despite a Tuesday slot. -/
theorem service_window_gate_witness :
    effective_sessions_for ((parse_date_yyyy_mm_dd "2025-01-06").getD 0)
        [⟨some "A", some 7, [("월", ⟨17, 0⟩)], "", ""⟩]
        [("7", ⟨false, none, [], ["21:00"]⟩)] =
      [(some "A", ⟨21, 0⟩, some 7)] ∧
    effective_sessions_for ((parse_date_yyyy_mm_dd "2025-01-06").getD 0)
        [⟨some "A", some 7, [("월", ⟨17, 0⟩)], "", ""⟩] [] = [] ∧
    effective_sessions_for ((parse_date_yyyy_mm_dd "2025-02-11").getD 0)
        [⟨some "B", some 8, [("화", ⟨17, 0⟩)], "2025-02-10", "2025-02-10"⟩] [] = [] :=
  ⟨by
    rw [((service_window_gate ((parse_date_yyyy_mm_dd "2025-01-06").getD 0)
      ⟨some "A", some 7, [("월", ⟨17, 0⟩)], "", ""⟩
      [("7", ⟨false, none, [], ["21:00"]⟩)]).1 rfl).2.2.1
      "A" ⟨false, none, [], ["21:00"]⟩ rfl rfl rfl rfl rfl]
    decide,
   ((service_window_gate ((parse_date_yyyy_mm_dd "2025-01-06").getD 0)
      ⟨some "A", some 7, [("월", ⟨17, 0⟩)], "", ""⟩ []).1 rfl).1
      (Or.inr rfl),
   by
    rw [((service_window_gate ((parse_date_yyyy_mm_dd "2025-02-11").getD 0)
      ⟨some "B", some 8, [("화", ⟨17, 0⟩)], "2025-02-10", "2025-02-10"⟩ []).2
      ((parse_date_yyyy_mm_dd "2025-02-10").getD 0) rfl).1 (Or.inr rfl)]
    decide⟩
/-! ## C2: override layering order -/

/-- The `(from, to)` time pairs of a `changes` list that actually
parse; an item with an absent or unparseable side is dropped (it is a
no-op in `effective_sessions_for`). -/
def parsedChangePairs (chg : List (Option String × Option String)) :
    List (Dtime × Dtime) :=
  chg.filterMap (fun c =>
    match c.1.bind parse_time_str, c.2.bind parse_time_str with
    | some f, some t => some (f, t)
    | _, _ => none)

/-- Modelled from the spec wording of the change pass: one `(from, to)`
pair applied to the working set — remove `from` if present and insert
`to`; a pair whose `from` time is not in the current set is silently
ignored as a no-op. -/
def spec_change_pair (S : List Dtime) (p : Dtime × Dtime) : List Dtime :=
  if p.1 ∈ S then
    let S := S.erase p.1
    if p.2 ∈ S then S else S ++ [p.2]
  else S

theorem foldl_apply_change_pair_eq_spec (chg : List (Option String × Option String)) :
    ∀ ts : List Dtime,
      chg.foldl apply_change_pair ts =
        (parsedChangePairs chg).foldl spec_change_pair ts := by
  induction chg with
  | nil => intro ts; rfl
  | cons c rest ih =>
    intro ts
    unfold parsedChangePairs
    rw [List.filterMap_cons]
    cases hf : c.1.bind parse_time_str with
    | none =>
      have hstep : apply_change_pair ts c = ts := by
        unfold apply_change_pair
        rw [hf]
      rw [List.foldl_cons, hstep]
      cases ht : c.2.bind parse_time_str <;>
        simpa [hf, ht, parsedChangePairs] using ih ts
    | some f =>
      cases ht : c.2.bind parse_time_str with
      | none =>
        have hstep : apply_change_pair ts c = ts := by
          unfold apply_change_pair
          rw [hf, ht]
        rw [List.foldl_cons, hstep]
        simpa [hf, ht, parsedChangePairs] using ih ts
      | some t =>
        have hstep : apply_change_pair ts c = spec_change_pair ts (f, t) := by
          unfold apply_change_pair spec_change_pair
          rw [hf, ht]
        rw [List.foldl_cons, hstep]
        simpa [hf, ht, parsedChangePairs] using ih (spec_change_pair ts (f, t))

/-- Counterexample to C2 as stated.  The single-change step of
`effective_sessions_for` is not in an `else` branch of the `changes`
pass: for an entry holding both a non-empty `changes` list and a
`change`, the code first applies the pair `17:00 -> 18:00` and then
replaces the whole set with `20:00` — the claim says the single change
is applied only when `changeList` is empty, which would resolve this
day to the 18:00 session. -/
theorem change_layering_order_counterexample :
    (⟨false, some "20:00", [(some "17:00", some "18:00")], []⟩ : OvEntry).changes ≠ [] ∧
    effective_sessions_for ((parse_date_yyyy_mm_dd "2025-01-06").getD 0)
        [⟨some "A", some 7, [("월", ⟨17, 0⟩)], "2025-01-01", ""⟩]
        [("7", ⟨false, some "20:00", [(some "17:00", some "18:00")], []⟩)] =
      [(some "A", ⟨20, 0⟩, some 7)] ∧
    (some "A", (⟨18, 0⟩ : Dtime), some (7 : Int)) ∉
      effective_sessions_for ((parse_date_yyyy_mm_dd "2025-01-06").getD 0)
        [⟨some "A", some 7, [("월", ⟨17, 0⟩)], "2025-01-01", ""⟩]
        [("7", ⟨false, some "20:00", [(some "17:00", some "18:00")], []⟩)] := by
  refine ⟨by decide, by decide, by decide⟩

/-- C2 as amended.  The `changes` pass applies the parseable pairs in
list order with spec semantics (remove `from` if present, insert `to`;
a pair whose `from` is not held is a silent no-op), then deduplicates
and sorts; a set `change` that parses replaces the entire working set
whether or not `changes` is non-empty (it is applied after the
`changes` pass, so when both forms are present the single change wins);
in particular, with an empty `changes` list the single change replaces
whatever the window and template produced.  Stated on a non-cancelled,
no-makeup entry so that the layering is the observable result. -/
theorem change_layering_order_amended (entry : OvEntry) (ts : List Dtime)
    (hm : entry.makeup = []) (hc : entry.cancel = false) :
    (∀ s tc, entry.change = some s → parse_time_str s = some tc →
      apply_overrides entry ts = [tc]) ∧
    (entry.change = none → entry.changes ≠ [] →
      apply_overrides entry ts =
        dedupSortTimes ((parsedChangePairs entry.changes).foldl spec_change_pair ts)) ∧
    (∀ S p, p.1 ∉ S → spec_change_pair S p = S) ∧
    (∀ day info ovsDay n s tc, info.name = some n →
      _ov_get ovsDay info.name info.id = some entry →
      entry.change = some s → parse_time_str s = some tc →
      effective_sessions_for day [info] ovsDay = [(some n, tc, info.id)]) := by
  have hch_all : ∀ (ts' : List Dtime) (s : String) (tc : Dtime),
      entry.change = some s → parse_time_str s = some tc →
      apply_overrides entry ts' = [tc] := by
    intro ts' s tc hs hp
    unfold apply_overrides
    rw [hs, hm]
    simp [hp, hc]
  refine ⟨hch_all ts, fun hnone hne => ?_, fun S p hp => ?_, ?_⟩
  · unfold apply_overrides
    rw [hnone, hm]
    simp only [hc, Bool.false_eq_true, if_false, List.foldl_nil]
    rw [if_pos hne, foldl_apply_change_pair_eq_spec]
  · unfold spec_change_pair
    simp [hp]
  · intro day info ovsDay n s tc hn hget hs hp
    have hsingle : effective_sessions_for day [info] ovsDay =
        (sortTimes (row_times day info ovsDay)).map
          (fun t => (info.name, t, info.id)) := by
      simp [effective_sessions_for]
    rw [hsingle, row_times_of_entry hn hget, hch_all _ s tc hs hp, hn]
    rfl

/-- Witness for the amended C2: an entry holding both the pair
`17:00 -> 18:00` and the single change `20:00` resolves the working set
`[17:00]` to `[20:00]`: the single change wins over the non-empty
`changes` list. -/
theorem change_layering_order_amended_witness :
    apply_overrides ⟨false, some "20:00", [(some "17:00", some "18:00")], []⟩
      [⟨17, 0⟩] = [⟨20, 0⟩] :=
  (change_layering_order_amended
      ⟨false, some "20:00", [(some "17:00", some "18:00")], []⟩
      [⟨17, 0⟩] rfl rfl).1 "20:00" ⟨20, 0⟩ rfl rfl

/-! ## C4: per-subject sortedness and duplicate-freedom -/

theorem nodup_foldl_add_makeup {ts : List Dtime} (ms : List String)
    (h : ts.Nodup) : (ms.foldl add_makeup_time ts).Nodup := by
  induction ms generalizing ts with
  | nil => exact h
  | cons a rest ih =>
    refine ih ?_
    unfold add_makeup_time
    cases parse_time_str a with
    | none => exact h
    | some t =>
      by_cases hmem : t ∈ ts
      · simpa [hmem]
      · simp only [hmem, if_false]
        simp [List.nodup_append, h, hmem]

theorem nodup_apply_overrides {ts : List Dtime} (entry : OvEntry)
    (h : ts.Nodup) : (apply_overrides entry ts).Nodup := by
  unfold apply_overrides
  have h1 : (if entry.changes ≠ [] then
      dedupSortTimes (entry.changes.foldl apply_change_pair ts)
    else ts).Nodup := by
    by_cases hne : entry.changes ≠ []
    · simpa [hne] using nodup_dedupSortTimes _
    · simpa [hne] using h
  by_cases hcan : entry.cancel = true
  · simp [hcan]
  · simp only [hcan, Bool.false_eq_true, if_false]
    refine nodup_foldl_add_makeup _ ?_
    cases hch : entry.change with
    | none => simpa using h1
    | some ch =>
      cases hp : parse_time_str ch with
      | none => simpa [hp] using h1
      | some t => simp [hp]

theorem nodup_row_times {day : Nat} {info : Info} {ovsDay : OvsDay}
    (hnd : (weekday_times day info).Nodup) :
    (row_times day info ovsDay).Nodup := by
  have hsw : (service_window_times day info).Nodup := by
    unfold service_window_times
    cases parse_date_yyyy_mm_dd (pyStrip info.start_raw) with
    | none => exact List.nodup_nil
    | some sd =>
      by_cases hw : sd ≤ day ∧
          day ≤ (parse_date_yyyy_mm_dd (pyStrip info.end_raw)).getD (sd + 28)
      · simpa [hw] using hnd
      · simp [hw]
  unfold row_times
  cases (if info.name.isSome then _ov_get ovsDay info.name info.id else none) with
  | none => exact hsw
  | some entry => exact nodup_apply_overrides entry hsw

theorem filter_sessions_map (nm : Option String) (sid : Option Int)
    (x : Option String) (y : Option Int) (l : List Dtime) :
    ((l.map (fun t => ((x, t, y) : Session))).filter
        (fun s => decide (s.1 = nm ∧ s.2.2 = sid))) =
      (if x = nm ∧ y = sid then l.map (fun t => ((x, t, y) : Session)) else []) := by
  induction l with
  | nil => by_cases h : x = nm ∧ y = sid <;> simp [h]
  | cons a l ih =>
    by_cases h : x = nm ∧ y = sid
    · simp only [List.map_cons, List.filter_cons, ih, if_pos h]
      simp [h.1, h.2]
    · simp only [List.map_cons, List.filter_cons, ih, if_neg h]
      have hd : (decide ((x = nm ∧ y = sid) : Prop)) = false := by
        simpa using h
      simpa using hd

theorem map_sessions_times (x : Option String) (y : Option Int)
    (l : List Dtime) :
    ((l.map (fun t => ((x, t, y) : Session))).map (fun s => s.2.1)) = l := by
  induction l with
  | nil => rfl
  | cons a l ih => simp [ih]

theorem effective_sessions_filter_subject (day : Nat) (ovsDay : OvsDay)
    (nm : Option String) (sid : Option Int) (base : List Info) :
    (effective_sessions_for day base ovsDay).filter
        (fun s => decide (s.1 = nm ∧ s.2.2 = sid)) =
      effective_sessions_for day
        (base.filter (fun i => decide (i.name = nm ∧ i.id = sid))) ovsDay := by
  induction base with
  | nil => rfl
  | cons info rest ih =>
    simp only [effective_sessions_for, List.filter_append, ih, List.filter_cons]
    rw [filter_sessions_map]
    by_cases h : info.name = nm ∧ info.id = sid
    · rw [if_pos h]
      have hd : (decide ((info.name = nm ∧ info.id = sid) : Prop)) = true := by
        simpa using h
      rw [hd, if_pos rfl]
      simp only [effective_sessions_for, h.1, h.2]
    · rw [if_neg h]
      have hd : (decide ((info.name = nm ∧ info.id = sid) : Prop)) = false := by
        simpa using h
      rw [hd]
      simp

/-- Counterexample to C4 as stated, in both directions the amendment
needs.  First: a template row whose weekly slots repeat `(월, 17:00)`
resolves, with no override entry present, to the 17:00 session twice —
nothing in `effective_sessions_for` deduplicates the weekday slot list
when no `changes` pass runs, so the per-subject result has a duplicate
time.  Second: a subject spread over two template rows (19:00 then
17:00) gets its per-row blocks concatenated in row order, so its
resolved list is not sorted. -/
theorem resolved_sorted_nodup_counterexample :
    (effective_sessions_for ((parse_date_yyyy_mm_dd "2025-01-06").getD 0)
        [⟨some "A", some 7, [("월", ⟨17, 0⟩), ("월", ⟨17, 0⟩)], "2025-01-01", ""⟩]
        [] =
      [(some "A", ⟨17, 0⟩, some 7), (some "A", ⟨17, 0⟩, some 7)] ∧
    ¬ ((effective_sessions_for ((parse_date_yyyy_mm_dd "2025-01-06").getD 0)
        [⟨some "A", some 7, [("월", ⟨17, 0⟩), ("월", ⟨17, 0⟩)], "2025-01-01", ""⟩]
        []).map (fun s => s.2.1)).Nodup) ∧
    ((((effective_sessions_for ((parse_date_yyyy_mm_dd "2025-01-06").getD 0)
        [⟨some "A", some 7, [("월", ⟨19, 0⟩)], "2025-01-01", ""⟩,
         ⟨some "A", some 7, [("월", ⟨17, 0⟩)], "2025-01-01", ""⟩]
        []).filter (fun s => decide (s.1 = some "A" ∧ s.2.2 = some 7))).map
          (fun s => s.2.1)) = [⟨19, 0⟩, ⟨17, 0⟩] ∧
    ¬ List.Sorted timeLe ((((effective_sessions_for
        ((parse_date_yyyy_mm_dd "2025-01-06").getD 0)
        [⟨some "A", some 7, [("월", ⟨19, 0⟩)], "2025-01-01", ""⟩,
         ⟨some "A", some 7, [("월", ⟨17, 0⟩)], "2025-01-01", ""⟩]
        []).filter (fun s => decide (s.1 = some "A" ∧ s.2.2 = some 7))).map
          (fun s => s.2.1)))) :=
  ⟨⟨by decide, by decide⟩, ⟨by decide, by decide⟩⟩

/-- C4 as amended.  For a subject identified by `(name, id)` whose
template set contains exactly one matching row, the sessions resolved
for that subject are always sorted ascending by start time — with no
condition on the row's slots; they are additionally duplicate-free
provided that row's weekday-matching slot times are duplicate-free.
Both restrictions are forced by the counterexample: a subject spread
over several rows gets per-row blocks concatenated, which can be
unsorted, and a repeated `(weekday, time)` template pair propagates to
the output when no override rewrites the set. -/
theorem resolved_sorted_nodup_amended (day : Nat) (base : List Info)
    (ovsDay : OvsDay) (nm : Option String) (sid : Option Int) (info : Info)
    (hrow : base.filter (fun i => decide (i.name = nm ∧ i.id = sid)) = [info]) :
    List.Sorted timeLe (((effective_sessions_for day base ovsDay).filter
        (fun s => decide (s.1 = nm ∧ s.2.2 = sid))).map (fun s => s.2.1)) ∧
    ((weekday_times day info).Nodup →
      (((effective_sessions_for day base ovsDay).filter
        (fun s => decide (s.1 = nm ∧ s.2.2 = sid))).map (fun s => s.2.1)).Nodup) := by
  have key : ((effective_sessions_for day base ovsDay).filter
        (fun s => decide (s.1 = nm ∧ s.2.2 = sid))).map (fun s => s.2.1)
      = sortTimes (row_times day info ovsDay) := by
    rw [effective_sessions_filter_subject, hrow]
    simp only [effective_sessions_for, List.append_nil]
    exact map_sessions_times _ _ _
  rw [key]
  exact ⟨sorted_sortTimes _,
    fun hnd => nodup_sortTimes (nodup_row_times hnd)⟩

/-- Witness for the amended C4: subject `(A, 7)` with distinct Monday
slots 19:00 and 17:00 in a single row resolves on 2025-01-06 to a
sorted, duplicate-free time list. -/
theorem resolved_sorted_nodup_amended_witness :
    List.Sorted timeLe (((effective_sessions_for
        ((parse_date_yyyy_mm_dd "2025-01-06").getD 0)
        [⟨some "A", some 7, [("월", ⟨19, 0⟩), ("월", ⟨17, 0⟩)], "2025-01-01", ""⟩]
        []).filter (fun s => decide (s.1 = some "A" ∧ s.2.2 = some 7))).map
          (fun s => s.2.1)) ∧
    (((effective_sessions_for ((parse_date_yyyy_mm_dd "2025-01-06").getD 0)
        [⟨some "A", some 7, [("월", ⟨19, 0⟩), ("월", ⟨17, 0⟩)], "2025-01-01", ""⟩]
        []).filter (fun s => decide (s.1 = some "A" ∧ s.2.2 = some 7))).map
          (fun s => s.2.1)).Nodup :=
  ⟨(resolved_sorted_nodup_amended ((parse_date_yyyy_mm_dd "2025-01-06").getD 0)
      [⟨some "A", some 7, [("월", ⟨19, 0⟩), ("월", ⟨17, 0⟩)], "2025-01-01", ""⟩]
      [] (some "A") (some 7)
      ⟨some "A", some 7, [("월", ⟨19, 0⟩), ("월", ⟨17, 0⟩)], "2025-01-01", ""⟩
      (by decide)).1,
   (resolved_sorted_nodup_amended ((parse_date_yyyy_mm_dd "2025-01-06").getD 0)
      [⟨some "A", some 7, [("월", ⟨19, 0⟩), ("월", ⟨17, 0⟩)], "2025-01-01", ""⟩]
      [] (some "A") (some 7)
      ⟨some "A", some 7, [("월", ⟨19, 0⟩), ("월", ⟨17, 0⟩)], "2025-01-01", ""⟩
      (by decide)).2 (by decide)⟩
/-! ## Registry lemmas for C5 / C8 -/

theorem regGet_cons (p : RelKey × RelTask) (rest : Registry) (k : RelKey) :
    regGet (p :: rest) k =
      if (p.1 == k) = true then some p.2 else regGet rest k := by
  unfold regGet
  rw [List.find?_cons]
  cases hbeq : (p.1 == k) <;> simp [hbeq]

theorem find?_map_replace (k : RelKey) (v : RelTask) :
    ∀ st : Registry, (st.any (fun p => p.1 == k)) = true →
      regGet (st.map (fun p => if (p.1 == k) = true then (k, v) else p)) k =
        some v := by
  intro st
  induction st with
  | nil => intro h; cases h
  | cons p rest ih =>
    intro hany
    rw [List.map_cons, regGet_cons]
    cases hbeq : (p.1 == k) with
    | true => simp [hbeq]
    | false =>
      have hr : (rest.any (fun p => p.1 == k)) = true := by
        simpa [List.any_cons, hbeq] using hany
      simp only [hbeq, Bool.false_eq_true, if_false]
      exact ih hr

theorem find?_map_replace_ne (k : RelKey) (v : RelTask) (k' : RelKey)
    (hne : k' ≠ k) :
    ∀ st : Registry,
      regGet (st.map (fun p => if (p.1 == k) = true then (k, v) else p)) k' =
        regGet st k' := by
  intro st
  induction st with
  | nil => rfl
  | cons p rest ih =>
    rw [List.map_cons, regGet_cons, regGet_cons]
    cases hbeq : (p.1 == k) with
    | true =>
      have hpk : p.1 = k := by simpa using hbeq
      have h1 : (p.1 == k') = false := by
        rw [beq_eq_false_iff_ne, hpk]
        exact fun he => hne he.symm
      have h2 : (k == k') = false := by
        rw [beq_eq_false_iff_ne]
        exact fun he => hne he.symm
      simp only [hbeq, if_true, h2, h1, Bool.false_eq_true, if_false]
      exact ih
    | false =>
      simp only [hbeq, Bool.false_eq_true, if_false]
      cases hc : (p.1 == k') with
      | true => simp [hc]
      | false =>
        simp only [hc, Bool.false_eq_true, if_false]
        exact ih

theorem regGet_regSet_self (st : Registry) (k : RelKey) (v : RelTask) :
    regGet (regSet st k v) k = some v := by
  unfold regSet
  by_cases hany : (st.any (fun p => p.1 == k)) = true
  · rw [if_pos hany]
    exact find?_map_replace k v st hany
  · rw [if_neg hany]
    have hnone : st.find? (fun p => p.1 == k) = none := by
      rw [List.find?_eq_none]
      intro p hp hbeq
      exact hany (List.any_eq_true.mpr ⟨p, hp, hbeq⟩)
    unfold regGet
    rw [List.find?_append, hnone]
    simp [Option.or, List.find?_cons]

theorem regGet_regSet_ne (st : Registry) (k : RelKey) (v : RelTask)
    (k' : RelKey) (hne : k' ≠ k) :
    regGet (regSet st k v) k' = regGet st k' := by
  unfold regSet
  by_cases hany : (st.any (fun p => p.1 == k)) = true
  · rw [if_pos hany]
    exact find?_map_replace_ne k v k' hne st
  · rw [if_neg hany]
    have h2 : (k == k') = false := by
      rw [beq_eq_false_iff_ne]
      exact fun he => hne he.symm
    unfold regGet
    rw [List.find?_append]
    cases hf : st.find? (fun p => p.1 == k') with
    | some p => simp [Option.or]
    | none => simp [Option.or, List.find?_cons, h2]

theorem regGet_cancel_matches (st : Registry) (day : Nat) (off : Option Int)
    (k : RelKey) (hk : relKeyMatches k day off = true) :
    regGet (_cancel_rel_tasks_for st day off) k = none := by
  unfold regGet _cancel_rel_tasks_for
  rw [List.find?_eq_none.mpr]
  · rfl
  · intro p hp
    rw [List.mem_filter] at hp
    intro hbeq
    have hpk : p.1 = k := by simpa using hbeq
    have := hp.2
    rw [hpk, hk] at this
    simp at this

theorem regGet_cancel_not_matches (st : Registry) (day : Nat)
    (off : Option Int) (k : RelKey) (hk : relKeyMatches k day off = false) :
    regGet (_cancel_rel_tasks_for st day off) k = regGet st k := by
  unfold _cancel_rel_tasks_for
  induction st with
  | nil => rfl
  | cons p rest ih =>
    rw [List.filter_cons]
    cases hm : relKeyMatches p.1 day off with
    | true =>
      have hne : (p.1 == k) = false := by
        rw [beq_eq_false_iff_ne]
        intro he
        rw [he, hk] at hm
        cases hm
      simp only [hm, Bool.not_true, Bool.false_eq_true, if_false]
      rw [ih, regGet_cons, hne]
      simp
    | false =>
      simp only [hm, Bool.not_false, if_true]
      rw [regGet_cons, regGet_cons]
      cases hbeq : (p.1 == k) <;> simp [hbeq, ih]

/-- The task `schedule_relative_alerts_for_today` leaves registered
under key `k` after its scheduling loop, determined by the last session
in list order whose key is `k` and whose fire time is still in the
future. -/
def livePlanned (today : Nat) (off : Int) (now : Int) (k : RelKey)
    (sessions : List Session) : Option RelTask :=
  match sessions.reverse.find? (fun s =>
      decide (0 < sessionFireAt today off s - now) &&
      (sessionKey today off s == k)) with
  | some s => some ⟨sessionFireAt today off s, .running⟩
  | none => none

theorem livePlanned_append_singleton (today : Nat) (off : Int) (now : Int)
    (k : RelKey) (l : List Session) (s : Session) :
    livePlanned today off now k (l ++ [s]) =
      if (decide (0 < sessionFireAt today off s - now) &&
          (sessionKey today off s == k)) = true
      then some ⟨sessionFireAt today off s, .running⟩
      else livePlanned today off now k l := by
  unfold livePlanned
  rw [List.reverse_append]
  simp only [List.reverse_cons, List.reverse_nil, List.nil_append,
    List.singleton_append, List.find?_cons]
  cases hcond : (decide (0 < sessionFireAt today off s - now) &&
      (sessionKey today off s == k)) <;> simp [hcond]

theorem schedStep_skip {today : Nat} {off now : Int} {s : Session}
    (h : sessionFireAt today off s - now ≤ 0) (st : Registry) :
    schedStep today off now st s = st := by
  unfold schedStep
  rw [if_pos h]

theorem schedStep_set {today : Nat} {off now : Int} {s : Session}
    (h : ¬ sessionFireAt today off s - now ≤ 0) (st : Registry) :
    schedStep today off now st s =
      regSet st (sessionKey today off s)
        ⟨sessionFireAt today off s, .running⟩ := by
  unfold schedStep
  rw [if_neg h]

theorem regGet_foldl_schedStep (today : Nat) (off : Int) (now : Int)
    (k : RelKey) :
    ∀ (sessions : List Session) (st : Registry),
      regGet (sessions.foldl (schedStep today off now) st) k =
        (match livePlanned today off now k sessions with
         | some t => some t
         | none => regGet st k) := by
  intro sessions
  induction sessions using List.reverseRecOn with
  | nil => intro st; rfl
  | append_singleton l s ih =>
    intro st
    rw [List.foldl_append, List.foldl_cons, List.foldl_nil,
      livePlanned_append_singleton]
    cases hcond : (decide (0 < sessionFireAt today off s - now) &&
        (sessionKey today off s == k)) with
    | true =>
      obtain ⟨h1, h2⟩ := Bool.and_eq_true_iff.mp hcond
      have hfut : 0 < sessionFireAt today off s - now := of_decide_eq_true h1
      have hkey : sessionKey today off s = k := by simpa using h2
      rw [schedStep_set (by omega : ¬ sessionFireAt today off s - now ≤ 0),
        hkey, regGet_regSet_self]
      simp
    | false =>
      simp only [Bool.false_eq_true, if_false]
      by_cases hskip : sessionFireAt today off s - now ≤ 0
      · rw [schedStep_skip hskip, ih st]
      · rw [schedStep_set hskip]
        have h1 : decide (0 < sessionFireAt today off s - now) = true := by
          rw [decide_eq_true_eq]
          omega
        have h2 : (sessionKey today off s == k) = false := by
          cases hb : (sessionKey today off s == k)
          · rfl
          · rw [h1, hb] at hcond
            cases hcond
        have hkne : k ≠ sessionKey today off s := by
          intro he
          rw [he] at h2
          simp at h2
        rw [regGet_regSet_ne _ _ _ _ hkne, ih st]

theorem filter_map_replace_matching (day : Nat) (off : Int) (k : RelKey)
    (v : RelTask) (hk : relKeyMatches k day (some off) = true) :
    ∀ st : Registry,
      (st.map (fun p => if (p.1 == k) = true then (k, v) else p)).filter
          (fun p => !(relKeyMatches p.1 day (some off))) =
        st.filter (fun p => !(relKeyMatches p.1 day (some off))) := by
  intro st
  induction st with
  | nil => rfl
  | cons p rest ih =>
    rw [List.map_cons, List.filter_cons, List.filter_cons]
    cases hbeq : (p.1 == k) with
    | true =>
      have hpk : p.1 = k := by simpa using hbeq
      simp only [hbeq, if_true, hk, hpk, Bool.not_true, Bool.false_eq_true,
        if_false]
      exact ih
    | false =>
      simp only [hbeq, Bool.false_eq_true, if_false]
      cases hm : relKeyMatches p.1 day (some off) with
      | true =>
        simp only [Bool.not_true, Bool.false_eq_true, if_false]
        exact ih
      | false =>
        simp only [Bool.not_false, if_true, ih]

theorem cancel_schedStep (today : Nat) (off : Int) (now : Int)
    (st : Registry) (s : Session) :
    _cancel_rel_tasks_for (schedStep today off now st s) today (some off) =
      _cancel_rel_tasks_for st today (some off) := by
  by_cases hskip : sessionFireAt today off s - now ≤ 0
  · rw [schedStep_skip hskip]
  · rw [schedStep_set hskip]
    have hk : relKeyMatches (sessionKey today off s) today (some off) = true := by
      simp [relKeyMatches, sessionKey]
    unfold regSet
    by_cases hany : (st.any (fun p => p.1 == sessionKey today off s)) = true
    · rw [if_pos hany]
      exact filter_map_replace_matching today off _ _ hk st
    · rw [if_neg hany]
      unfold _cancel_rel_tasks_for
      rw [List.filter_append]
      simp [hk]

theorem cancel_foldl_schedStep (today : Nat) (off : Int) (now : Int) :
    ∀ (sessions : List Session) (st : Registry),
      _cancel_rel_tasks_for (sessions.foldl (schedStep today off now) st)
          today (some off) =
        _cancel_rel_tasks_for st today (some off) := by
  intro sessions
  induction sessions with
  | nil => intro st; rfl
  | cons s rest ih =>
    intro st
    rw [List.foldl_cons, ih, cancel_schedStep]

theorem cancel_idem (st : Registry) (day : Nat) (off : Option Int) :
    _cancel_rel_tasks_for (_cancel_rel_tasks_for st day off) day off =
      _cancel_rel_tasks_for st day off := by
  unfold _cancel_rel_tasks_for
  rw [List.filter_filter]
  simp

theorem keys_map_replace (k : RelKey) (v : RelTask) :
    ∀ st : Registry,
      ((st.map (fun p => if (p.1 == k) = true then (k, v) else p)).map
          Prod.fst) = st.map Prod.fst := by
  intro st
  induction st with
  | nil => rfl
  | cons p rest ih =>
    rw [List.map_cons, List.map_cons, List.map_cons, ih]
    cases hbeq : (p.1 == k) with
    | true =>
      have hpk : p.1 = k := by simpa using hbeq
      simp [hbeq, hpk]
    | false => simp [hbeq]

theorem nodup_keys_regSet (st : Registry) (k : RelKey) (v : RelTask)
    (h : (st.map Prod.fst).Nodup) :
    ((regSet st k v).map Prod.fst).Nodup := by
  unfold regSet
  by_cases hany : (st.any (fun p => p.1 == k)) = true
  · rw [if_pos hany, keys_map_replace]
    exact h
  · rw [if_neg hany, List.map_append]
    refine List.nodup_append.mpr ⟨h, List.nodup_singleton k, ?_⟩
    intro x hx hx2
    obtain ⟨p, hp, rfl⟩ := List.mem_map.mp hx
    have hpk : p.1 = k := by simpa using hx2
    exact hany (List.any_eq_true.mpr ⟨p, hp, by simp [hpk]⟩)

theorem nodup_keys_cancel (st : Registry) (day : Nat) (off : Option Int)
    (h : (st.map Prod.fst).Nodup) :
    ((_cancel_rel_tasks_for st day off).map Prod.fst).Nodup :=
  h.sublist ((List.filter_sublist _).map Prod.fst)

theorem nodup_keys_foldl (today : Nat) (off : Int) (now : Int) :
    ∀ (sessions : List Session) (st : Registry),
      (st.map Prod.fst).Nodup →
      (((sessions.foldl (schedStep today off now) st)).map Prod.fst).Nodup := by
  intro sessions
  induction sessions with
  | nil => intro st h; exact h
  | cons s rest ih =>
    intro st h
    rw [List.foldl_cons]
    refine ih _ ?_
    by_cases hskip : sessionFireAt today off s - now ≤ 0
    · rw [schedStep_skip hskip]; exact h
    · rw [schedStep_set hskip]; exact nodup_keys_regSet _ _ _ h

/-! ## C5: idempotent rescheduling -/

/-- C5.  `schedule_relative_alerts_for_today` first removes every
registered task whose key matches `(date = today, offset)` — regardless
of subject — and only then creates tasks, so: the registry keeps at
most one task per key (keys stay duplicate-free); every session whose
fire time is still in the future ends with exactly one live (running)
task under its key; a key of that day and offset with no future session
ends unregistered — in particular a session whose fire time is already
past is skipped, not rescheduled; and running the operation twice in a
row with the same sessions leaves the registry exactly as after the
first run. -/
theorem reschedule_idempotent (st : Registry) (today : Nat)
    (sessions : List Session) (now : Int) (off : Int)
    (hkeys : (st.map Prod.fst).Nodup) :
    ((schedule_relative_alerts_for_today st today sessions now off).map
        Prod.fst).Nodup ∧
    (∀ s ∈ sessions, 0 < sessionFireAt today off s - now →
      ∃ fa, regGet (schedule_relative_alerts_for_today st today sessions now off)
        (sessionKey today off s) = some ⟨fa, .running⟩) ∧
    (∀ k : RelKey, k.day = today → k.off = off →
      (∀ s ∈ sessions, sessionKey today off s = k →
        sessionFireAt today off s - now ≤ 0) →
      regGet (schedule_relative_alerts_for_today st today sessions now off) k =
        none) ∧
    schedule_relative_alerts_for_today
        (schedule_relative_alerts_for_today st today sessions now off)
        today sessions now off =
      schedule_relative_alerts_for_today st today sessions now off := by
  refine ⟨?_, ?_, ?_, ?_⟩
  · exact nodup_keys_foldl today off now sessions _
      (nodup_keys_cancel st today (some off) hkeys)
  · intro s hs hfut
    unfold schedule_relative_alerts_for_today
    rw [regGet_foldl_schedStep]
    unfold livePlanned
    cases hf : sessions.reverse.find? (fun s' =>
        decide (0 < sessionFireAt today off s' - now) &&
        (sessionKey today off s' == sessionKey today off s)) with
    | none =>
      exfalso
      have hnot := List.find?_eq_none.mp hf s (List.mem_reverse.mpr hs)
      apply hnot
      simp [hfut]
    | some s' =>
      exact ⟨sessionFireAt today off s', rfl⟩
  · intro k hday hoff hall
    unfold schedule_relative_alerts_for_today
    rw [regGet_foldl_schedStep]
    unfold livePlanned
    have hf : sessions.reverse.find? (fun s' =>
        decide (0 < sessionFireAt today off s' - now) &&
        (sessionKey today off s' == k)) = none := by
      rw [List.find?_eq_none]
      intro s' hs' hpred
      obtain ⟨h1, h2⟩ := Bool.and_eq_true_iff.mp hpred
      have hkey : sessionKey today off s' = k := by simpa using h2
      have hfut : 0 < sessionFireAt today off s' - now := of_decide_eq_true h1
      have := hall s' (List.mem_reverse.mp hs') hkey
      omega
    rw [hf]
    exact regGet_cancel_matches st today (some off) k
      (by simp [relKeyMatches, hday, hoff])
  · unfold schedule_relative_alerts_for_today
    rw [cancel_foldl_schedStep, cancel_idem]

/-- Witness for C5: from an empty registry, scheduling the 17:00
session of subject 7 at offset `-10` leaves one running task under its
key. -/
theorem reschedule_idempotent_witness :
    ∃ fa, regGet (schedule_relative_alerts_for_today [] 0
        [(some "A", ⟨17, 0⟩, some 7)] 0 (-10))
      (sessionKey 0 (-10) (some "A", ⟨17, 0⟩, some 7)) =
        some ⟨fa, .running⟩ :=
  (reschedule_idempotent [] 0 [(some "A", ⟨17, 0⟩, some 7)] 0 (-10)
      (by decide)).2.1
    (some "A", ⟨17, 0⟩, some 7) (List.mem_singleton.mpr rfl) (by decide)

/-! ## C8: terminal-state deregistration -/

/-- Counterexample to C8 as stated.  The body of `_fire_relative`
contains no operation on `rel_tasks`: a task that fires (or is
suppressed as stale) leaves the registry exactly as it was — its key is
still registered after termination, so the registry does retain entries
for terminated tasks until the next cancel/rebuild removes them. -/
theorem terminal_deregistration_counterexample :
    _fire_relative_registry_after
        [(⟨some 7, 1700, 739562, -10⟩, ⟨60600, .running⟩)] =
      [(⟨some 7, 1700, 739562, -10⟩, ⟨60600, .running⟩)] ∧
    regGet (_fire_relative_registry_after
        [(⟨some 7, 1700, 739562, -10⟩, ⟨60600, .running⟩)])
      ⟨some 7, 1700, 739562, -10⟩ ≠ none :=
  ⟨rfl, by decide⟩

/-- C8 as amended.  Deregistration happens in the scheduler, not in the
task: `_cancel_rel_tasks_for` removes every matching key from the
registry (its `pop` is the only deregistration) and leaves every other
key untouched, and after `schedule_relative_alerts_for_today` every
task registered under a key of that day and offset is freshly created
and running — terminated tasks persist in the registry only until the
next cancel or rebuild for their `(date, offset)` replaces them. -/
theorem terminal_deregistration_amended (st : Registry) (day : Nat)
    (off : Option Int) (k : RelKey) :
    (relKeyMatches k day off = true →
      regGet (_cancel_rel_tasks_for st day off) k = none) ∧
    (relKeyMatches k day off = false →
      regGet (_cancel_rel_tasks_for st day off) k = regGet st k) ∧
    (∀ (sessions : List Session) (now offm : Int) (t : RelTask),
      k.day = day → k.off = offm →
      regGet (schedule_relative_alerts_for_today st day sessions now offm) k =
        some t →
      t.status = .running) := by
  refine ⟨fun hk => regGet_cancel_matches st day off k hk,
    fun hk => regGet_cancel_not_matches st day off k hk, ?_⟩
  intro sessions now offm t hday hoff h
  unfold schedule_relative_alerts_for_today at h
  rw [regGet_foldl_schedStep] at h
  unfold livePlanned at h
  cases hf : sessions.reverse.find? (fun s' =>
      decide (0 < sessionFireAt day offm s' - now) &&
      (sessionKey day offm s' == k)) with
  | some s' =>
    rw [hf] at h
    have := (Option.some.injEq _ _).mp h
    rw [← this]
  | none =>
    rw [hf] at h
    rw [regGet_cancel_matches st day (some offm) k
      (by simp [relKeyMatches, hday, hoff])] at h
    cases h

/-- Witness for the amended C8: cancelling day 739562 offset `-10`
removes the done task registered under the matching key. -/
theorem terminal_deregistration_amended_witness :
    regGet (_cancel_rel_tasks_for
        [(⟨some 7, 1700, 739562, -10⟩, ⟨60600, .done⟩)] 739562 (some (-10)))
      ⟨some 7, 1700, 739562, -10⟩ = none :=
  (terminal_deregistration_amended
      [(⟨some 7, 1700, 739562, -10⟩, ⟨60600, .done⟩)] 739562 (some (-10))
      ⟨some 7, 1700, 739562, -10⟩).1 (by decide)
